import Mathlib

/-!
Verification of the device aggregation store of the shino_wifi_ble_scanner
repository (`scanners.py`, consumed by `app.py`).

The Python source is shallowly embedded: the mutable `DeviceStore` becomes a
functional state (`DeviceStore.update` returns the new store), Python dicts
become insertion-ordered association lists, `collections.deque(maxlen=n)`
becomes a list truncated to its last `n` elements on append, and
`time.time()` is threaded in as an explicit `now : Nat` tick.  Python `int`
signals are modelled as `Int` (matching the declared `Optional[int]` type of
the `rssi` parameter), so Python's `int(rssi)` is the identity.  The store
and vendor locks serialize all accesses, so the functional semantics below is
the code's behaviour as observed by any single serialized caller; the lock
acquisition order itself is modelled separately as an event trace.
-/

/-- Python whitespace test used by `str.strip()` (ASCII fragment): space,
tab, line feed, carriage return, vertical tab, form feed. -/
def isSpaceChar (c : Char) : Bool :=
  c.toNat = 32 || c.toNat = 9 || c.toNat = 10 || c.toNat = 13 ||
    c.toNat = 11 || c.toNat = 12

/-- Python `str.upper()` on one character (ASCII fragment: `a`..`z` map to
`A`..`Z`, every other character is unchanged). -/
def upChar (c : Char) : Char :=
  if 97 ≤ c.toNat ∧ c.toNat ≤ 122 then Char.ofNat (c.toNat - 32) else c

/-- One character of `str.replace("-", ":")`. -/
def repChar (c : Char) : Char :=
  if c = '-' then ':' else c

/-- `l.dropWhile` from the left: Python `lstrip()`. -/
def ltrim (l : List Char) : List Char := l.dropWhile isSpaceChar

/-- Strip trailing whitespace: Python `rstrip()`. -/
def rtrim (l : List Char) : List Char := (ltrim l.reverse).reverse

/-- Python `str.strip()`: drop leading and trailing whitespace. -/
def stripL (l : List Char) : List Char := rtrim (ltrim l)

/-- `mac.strip().upper().replace("-", ":")` — the preprocessing pipeline of
`_normalize_mac` (scanners.py line 20), on character lists. -/
def preMacL (l : List Char) : List Char :=
  ((stripL l).map upChar).map repChar

/-- `":".join(mac[i:i+2] for i in range(0, 12, 2))` (scanners.py line 23):
insert a colon after every second character of a 12-character string; any
other length is returned unchanged (the source only evaluates this on
12-character input). -/
def insert12 : List Char → List Char
  | [a, b, c, d, e, f, g, h, i, j, k, l] =>
      [a, b, ':', c, d, ':', e, f, ':', g, h, ':', i, j, ':', k, l]
  | l => l

/-- `_normalize_mac` (scanners.py lines 19–24) on character lists. -/
def normMacL (l : List Char) : List Char :=
  let m := preMacL l
  if m.contains ':' = false ∧ m.length = 12 then insert12 m else m

/-- `_normalize_mac` (scanners.py lines 19–24): trim, uppercase, replace
hyphens by colons, then insert colons every two characters whenever the
result has no colon and is exactly 12 characters long. -/
def normalize_mac (s : String) : String :=
  ⟨normMacL s.data⟩

/-- Python truthiness of an `Optional[str]`: `None` and `""` are falsy. -/
def optTruthy : Option String → Bool
  | none => false
  | some s => s ≠ ""

/-- Python `a or b` on `Optional[str]` values (used for `name or ssid` and
`rec.vendor or _vendor_for(mac)`). -/
def pyOr (a b : Option String) : Option String :=
  if optTruthy a then a else b

/-- The last `n` elements of a list, in order. -/
def takeLast (n : Nat) (l : List α) : List α := l.drop (l.length - n)

/-- `deque(maxlen := maxlen).append(x)` semantics: append and keep only the
last `maxlen` elements (the oldest is evicted when full). -/
def dequeAppend (maxlen : Nat) (h : List Int) (x : Int) : List Int :=
  takeLast maxlen (h ++ [x])

/-- `DeviceRecord` (scanners.py lines 45–54).  The dataclass has fields
`type`, `mac`, `name`, `ssid`, `vendor`, `rssi`, `last_seen`, `history` —
and no first-seen field.  `last_seen` (a `time.time()` float) is modelled as
an abstract `Nat` tick. -/
structure DeviceRecord where
  type : String
  mac : String
  name : Option String := none
  ssid : Option String := none
  vendor : Option String := none
  rssi : Option Int := none
  last_seen : Nat
  history : List Int := []
deriving Repr, DecidableEq

/-- `DeviceStore` state (scanners.py lines 57–61): `_records` is a Python
dict, i.e. an insertion-ordered map from normalized MAC to record; the lock
is not part of the serialized functional state. -/
structure DeviceStore where
  history_len : Nat
  records : List (String × DeviceRecord)
deriving Repr, DecidableEq

/-- `DeviceStore.__init__(history_len)` (scanners.py lines 58–61). -/
def DeviceStore.init (history_len : Nat) : DeviceStore :=
  { history_len := history_len, records := [] }

/-- `self._records.get(mac)`: lookup in the insertion-ordered map. -/
def getRecord (rs : List (String × DeviceRecord)) (k : String) :
    Option DeviceRecord :=
  match rs with
  | [] => none
  | (k1, v) :: t => if k1 = k then some v else getRecord t k

/-- `self._records[mac] = rec`: overwrite in place if the key exists,
otherwise append at the end (Python dicts preserve insertion order). -/
def setRecord (rs : List (String × DeviceRecord)) (k : String)
    (v : DeviceRecord) : List (String × DeviceRecord) :=
  match rs with
  | [] => [(k, v)]
  | (k', v') :: t => if k' = k then (k, v) :: t else (k', v') :: setRecord t k v

/-- `DeviceStore.update` (scanners.py lines 63–83).  `vendorFor` abstracts
`_vendor_for`'s return value (the vendor cache plus optional backend);
`now` abstracts `time.time()`.  An empty normalized MAC or a `None` rssi
returns the store unchanged (line 65–66); otherwise the record for the
normalized MAC is fetched or created with a fresh `deque(maxlen=history_len)`
history, its type/mac overwritten, names set by branch (wifi:
`rec.ssid = name or ssid; rec.name = None`; else: `rec.name = name`), vendor
filled only if falsy, and rssi/last_seen/history updated. -/
def DeviceStore.update (st : DeviceStore) (vendorFor : String → Option String)
    (now : Nat) (dev_type : String) (mac : String) (name : Option String)
    (rssi : Option Int) (ssid : Option String) : DeviceStore :=
  let m := normalize_mac mac
  if m = "" ∨ rssi = none then st
  else
    match rssi with
    | none => st
    | some r =>
      let rec0 : DeviceRecord :=
        match getRecord st.records m with
        | some rec => rec
        | none => { type := dev_type, mac := m, last_seen := now, history := [] }
      let rec1 := { rec0 with type := dev_type, mac := m }
      let rec2 :=
        if dev_type = "wifi" then { rec1 with ssid := pyOr name ssid, name := none }
        else { rec1 with name := name }
      let rec3 := { rec2 with vendor := pyOr rec2.vendor (vendorFor m) }
      let rec4 := { rec3 with
        rssi := some r,
        last_seen := now,
        history := dequeAppend st.history_len rec3.history r }
      { st with records := setRecord st.records m rec4 }

/-- Values appearing in the snapshot dicts.  `time` stands for a
`time.time()` float tick. -/
inductive PyVal where
  | none
  | str (s : String)
  | int (n : Int)
  | time (t : Nat)
  | intList (l : List Int)
deriving Repr, DecidableEq

/-- Inject an `Optional[str]` field into a dict value. -/
def optStrVal : Option String → PyVal
  | none => PyVal.none
  | some s => PyVal.str s

/-- Inject an `Optional[int]` field into a dict value. -/
def optIntVal : Option Int → PyVal
  | none => PyVal.none
  | some n => PyVal.int n

/-- The dict built for one record by `snapshot` (scanners.py lines 89–98):
exactly the keys `type, mac, name, ssid, vendor, rssi, last_seen, history`. -/
def recDict (rec : DeviceRecord) : List (String × PyVal) :=
  [ ("type", PyVal.str rec.type),
    ("mac", PyVal.str rec.mac),
    ("name", optStrVal rec.name),
    ("ssid", optStrVal rec.ssid),
    ("vendor", optStrVal rec.vendor),
    ("rssi", optIntVal rec.rssi),
    ("last_seen", PyVal.time rec.last_seen),
    ("history", PyVal.intList rec.history) ]

/-- `d.get(k)` / `d[k]` on a snapshot dict. -/
def dictGet (d : List (String × PyVal)) (k : String) : Option PyVal :=
  List.lookup k d

/-- `sort_key` (scanners.py lines 100–105): `t = 0 if d["type"] == "wifi"
else 1`; `strength = -(rssi if numeric else -9999)`; the key is
`(t, -strength)`. -/
def sort_key (d : List (String × PyVal)) : Int × Int :=
  let t : Int := if dictGet d "type" = some (PyVal.str "wifi") then 0 else 1
  let strength : Int :=
    -(match dictGet d "rssi" with
      | some (PyVal.int n) => n
      | _ => -9999)
  (t, -strength)

/-- Strict lexicographic order on sort keys. -/
def keyLt (a b : Int × Int) : Prop :=
  a.1 < b.1 ∨ (a.1 = b.1 ∧ a.2 < b.2)

instance (a b : Int × Int) : Decidable (keyLt a b) := by
  unfold keyLt; infer_instance

/-- Stable insertion of an earlier element into the sorted list of later
elements: it goes before every element whose key is not strictly smaller,
so ties keep their original (insertion) order, as Python's stable sort does. -/
def insertAsc (key : α → Int × Int) (x : α) : List α → List α
  | [] => [x]
  | y :: t => if keyLt (key y) (key x) then y :: insertAsc key x t else x :: y :: t

/-- Stable ascending sort by key (`list.sort(key=...)`). -/
def sortByKey (key : α → Int × Int) : List α → List α
  | [] => []
  | x :: t => insertAsc key x (sortByKey key t)

/-- `DeviceStore.snapshot` (scanners.py lines 85–107): one dict per record in
insertion order, then a stable ascending sort by `sort_key`. -/
def DeviceStore.snapshot (st : DeviceStore) : List (List (String × PyVal)) :=
  sortByKey sort_key (st.records.map (fun p => recDict p.2))

/-! ### Basic facts about the map and the bounded history -/

theorem takeLast_length_le (n : Nat) (l : List α) : (takeLast n l).length ≤ n := by
  simp [takeLast]
  omega

theorem getRecord_setRecord_self (rs : List (String × DeviceRecord)) (k : String)
    (v : DeviceRecord) : getRecord (setRecord rs k v) k = some v := by
  induction rs with
  | nil => simp [getRecord, setRecord]
  | cons p t ih =>
    obtain ⟨k1, v1⟩ := p
    by_cases h : k1 = k
    · simp [getRecord, setRecord, h]
    · simp [getRecord, setRecord, h, ih]

theorem getRecord_setRecord_ne (rs : List (String × DeviceRecord)) (k k2 : String)
    (v : DeviceRecord) (h : k2 ≠ k) :
    getRecord (setRecord rs k v) k2 = getRecord rs k2 := by
  induction rs with
  | nil => simp [getRecord, setRecord, Ne.symm h]
  | cons p t ih =>
    obtain ⟨k1, v1⟩ := p
    by_cases hk : k1 = k
    · subst hk
      simp [getRecord, setRecord, Ne.symm h]
    · simp [getRecord, setRecord, hk, ih]

theorem dequeAppend_ne_nil {N : Nat} (hN : 0 < N) (h : List Int) (x : Int) :
    dequeAppend N h x ≠ [] := by
  unfold dequeAppend takeLast
  intro hc
  have hlen := congrArg List.length hc
  simp at hlen
  omega

theorem dequeAppend_getLast {N : Nat} (hN : 0 < N) (h : List Int) (x : Int) :
    (dequeAppend N h x).getLast? = some x := by
  unfold dequeAppend takeLast
  rw [List.drop_append_of_le_length (by simp; omega)]
  exact List.getLast?_concat _

/-- A vendor environment that always fails to resolve (backend absent). -/
def vfNone : String → Option String := fun _ => none

/-- The malformed-input guard of `update` (scanners.py lines 64–66): an
empty normalized address or a `None` signal means the call is the identity
on the store. -/
theorem update_noop_of_guard (st : DeviceStore) (vf : String → Option String)
    (now : Nat) (dev_type mac : String) (name : Option String)
    (rssi : Option Int) (ssid : Option String)
    (h : normalize_mac mac = "" ∨ rssi = none) :
    st.update vf now dev_type mac name rssi ssid = st := by
  unfold DeviceStore.update
  rw [if_pos h]

/-- C7.  `update` with an address that normalizes to the empty string, or a
`None` signal, returns without touching the store: the state after the call
is exactly the state before it (scanners.py lines 64–66). -/
theorem update_drop_malformed (st : DeviceStore) (vf : String → Option String)
    (now : Nat) (dev_type mac : String) (name : Option String)
    (rssi : Option Int) (ssid : Option String)
    (h : normalize_mac mac = "" ∨ rssi = none) :
    st.update vf now dev_type mac name rssi ssid = st :=
  update_noop_of_guard st vf now dev_type mac name rssi ssid h

theorem update_drop_malformed_witness :
    ((normalize_mac "" = "" ∨ (some (-40) : Option Int) = none) ∧
      (DeviceStore.init 5).update vfNone 0 "wifi" "" none (some (-40)) none =
        DeviceStore.init 5) ∧
    ((normalize_mac "AA:BB:CC:11:22:33" = "" ∨ (none : Option Int) = none) ∧
      (DeviceStore.init 5).update vfNone 0 "ble" "AA:BB:CC:11:22:33"
          (some "Tag") none none = DeviceStore.init 5) :=
  ⟨⟨Or.inl rfl,
    update_drop_malformed _ vfNone 0 "wifi" "" none (some (-40)) none (Or.inl rfl)⟩,
   ⟨Or.inr rfl,
    update_drop_malformed _ vfNone 0 "ble" "AA:BB:CC:11:22:33" (some "Tag")
      none none (Or.inr rfl)⟩⟩

/-- C10.  After every successful `update` (non-empty normalized address,
non-null signal), the stored record has `rssi = some r`, a non-empty history,
and the newest (last) history sample equals `r` (scanners.py lines 81–83; the
signal is typed `Optional[int]`, so Python's `int(rssi)` is the identity).
Requires a positive history capacity, as spec §6 demands of the
configuration surface. -/
theorem update_latest_signal (st : DeviceStore) (vf : String → Option String)
    (now : Nat) (dev_type mac : String) (name : Option String) (r : Int)
    (ssid : Option String) (hN : 0 < st.history_len)
    (hm : normalize_mac mac ≠ "") :
    ∃ rec,
      getRecord ((st.update vf now dev_type mac name (some r) ssid)).records
          (normalize_mac mac) = some rec ∧
      rec.rssi = some r ∧ rec.history ≠ [] ∧ rec.history.getLast? = some r := by
  unfold DeviceStore.update
  rw [if_neg (by simp [hm])]
  exact ⟨_, getRecord_setRecord_self _ _ _, rfl,
    dequeAppend_ne_nil hN _ _, dequeAppend_getLast hN _ _⟩

theorem update_latest_signal_witness :
    (0 < (DeviceStore.init 3).history_len ∧
      normalize_mac "AA:BB:CC:11:22:33" ≠ "") ∧
    ∃ rec,
      getRecord (((DeviceStore.init 3).update vfNone 5 "wifi"
          "AA:BB:CC:11:22:33" (some "HomeNet") (some (-40)) none)).records
          (normalize_mac "AA:BB:CC:11:22:33") = some rec ∧
      rec.rssi = some (-40) ∧ rec.history ≠ [] ∧
      rec.history.getLast? = some (-40) :=
  ⟨⟨by decide, by decide⟩,
   update_latest_signal (DeviceStore.init 3) vfNone 5 "wifi"
     "AA:BB:CC:11:22:33" (some "HomeNet") (-40) none (by decide) (by decide)⟩

/-! ### C4 / C5: the display-name branches of `update` -/

/-- The C4 claim as stated by the spec: for a successful wifi update, the
record's SSID field is set from the `source_ssid` argument whenever that is
present, and from the fallback `display_name` argument only when
`source_ssid` is absent.  (In the source's parameter names, `display_name`
is `name` and `source_ssid` is `ssid`.) -/
def claimC4 : Prop :=
  ∀ (st : DeviceStore) (vf : String → Option String) (now : Nat)
    (mac : String) (name ssid : Option String) (r : Int),
    normalize_mac mac ≠ "" →
    (getRecord ((st.update vf now "wifi" mac name (some r) ssid)).records
        (normalize_mac mac)).map DeviceRecord.ssid =
      some (if ssid.isSome then ssid else name)

/-- C4 fails on the code: line 76 is `rec.ssid = name or ssid`, which
prefers the `name` (display_name) argument over the `ssid` (source_ssid)
argument.  With `name = "NameArg"` and `ssid = "SsidArg"` the record stores
`"NameArg"`, not `"SsidArg"`. -/
theorem wifi_ssid_precedence_counterexample : ¬ claimC4 := by
  intro h
  have h2 := h (DeviceStore.init 3) vfNone 0 "AA:BB:CC:11:22:33"
    (some "NameArg") (some "SsidArg") (-40) (by decide)
  revert h2
  decide

/-- C4 amended.  For a successful wifi update the record's SSID field is set
from the `display_name` argument when that is truthy (non-null and
non-empty), and from `source_ssid` only otherwise; the BLE-name field is
cleared (scanners.py lines 75–77). -/
theorem wifi_ssid_from_display_name (st : DeviceStore)
    (vf : String → Option String) (now : Nat) (mac : String)
    (name ssid : Option String) (r : Int) (hm : normalize_mac mac ≠ "") :
    ∃ rec,
      getRecord ((st.update vf now "wifi" mac name (some r) ssid)).records
          (normalize_mac mac) = some rec ∧
      rec.name = none ∧
      rec.ssid = (if optTruthy name then name else ssid) := by
  unfold DeviceStore.update
  rw [if_neg (by simp [hm])]
  exact ⟨_, getRecord_setRecord_self _ _ _, rfl, rfl⟩

theorem wifi_ssid_from_display_name_witness :
    (normalize_mac "AA:BB:CC:11:22:33" ≠ "") ∧
    ∃ rec,
      getRecord (((DeviceStore.init 3).update vfNone 0 "wifi"
          "AA:BB:CC:11:22:33" (some "NameArg") (some (-40))
          (some "SsidArg"))).records (normalize_mac "AA:BB:CC:11:22:33") =
        some rec ∧
      rec.name = none ∧
      rec.ssid = (if optTruthy (some "NameArg") then some "NameArg"
        else some "SsidArg") :=
  ⟨by decide,
   wifi_ssid_from_display_name (DeviceStore.init 3) vfNone 0
     "AA:BB:CC:11:22:33" (some "NameArg") (some "SsidArg") (-40) (by decide)⟩

/-- The C5 claim as stated by the spec: a successful ble update sets the
BLE-name field from `display_name` and clears the SSID field, so at most one
of the two is ever set afterwards. -/
def claimC5 : Prop :=
  ∀ (st : DeviceStore) (vf : String → Option String) (now : Nat)
    (mac : String) (name ssid : Option String) (r : Int),
    normalize_mac mac ≠ "" →
    (getRecord ((st.update vf now "ble" mac name (some r) ssid)).records
        (normalize_mac mac)).map (fun rec => (rec.name, rec.ssid)) =
      some (name, (none : Option String))

/-- C5 fails on the code: the non-wifi branch (line 78–79) sets `rec.name`
but never clears `rec.ssid`.  A wifi update followed by a ble update of the
same address leaves BOTH the SSID ("HomeNet") and the BLE name ("Tag") set. -/
theorem ble_clears_ssid_counterexample : ¬ claimC5 := by
  intro h
  have h2 := h ((DeviceStore.init 3).update vfNone 0 "wifi"
      "AA:BB:CC:11:22:33" (some "HomeNet") (some (-40)) none)
    vfNone 1 "AA:BB:CC:11:22:33" (some "Tag") none (-50) (by decide)
  revert h2
  decide

/-- C5 amended.  A successful ble update sets the BLE-name field from
`display_name` but leaves the SSID field exactly as it was (no clearing), so
both display-name fields can be set at once (scanners.py lines 78–79). -/
theorem ble_name_set_ssid_unchanged (st : DeviceStore)
    (vf : String → Option String) (now : Nat) (mac : String)
    (name ssid : Option String) (r : Int) (hm : normalize_mac mac ≠ "") :
    ∃ rec,
      getRecord ((st.update vf now "ble" mac name (some r) ssid)).records
          (normalize_mac mac) = some rec ∧
      rec.name = name ∧
      rec.ssid = (match getRecord st.records (normalize_mac mac) with
        | some old => old.ssid
        | none => none) := by
  unfold DeviceStore.update
  rw [if_neg (by simp [hm])]
  cases getRecord st.records (normalize_mac mac) with
  | none => exact ⟨_, getRecord_setRecord_self _ _ _, rfl, rfl⟩
  | some old => exact ⟨_, getRecord_setRecord_self _ _ _, rfl, rfl⟩

theorem ble_name_set_ssid_unchanged_witness :
    (normalize_mac "AA:BB:CC:11:22:33" ≠ "") ∧
    ∃ rec,
      getRecord ((((DeviceStore.init 3).update vfNone 0 "wifi"
          "AA:BB:CC:11:22:33" (some "HomeNet") (some (-40)) none).update
          vfNone 1 "ble" "AA:BB:CC:11:22:33" (some "Tag") (some (-50))
          none)).records (normalize_mac "AA:BB:CC:11:22:33") = some rec ∧
      rec.name = some "Tag" ∧
      rec.ssid = (match getRecord ((DeviceStore.init 3).update vfNone 0 "wifi"
          "AA:BB:CC:11:22:33" (some "HomeNet") (some (-40)) none).records
          (normalize_mac "AA:BB:CC:11:22:33") with
        | some old => old.ssid
        | none => none) :=
  ⟨by decide,
   ble_name_set_ssid_unchanged ((DeviceStore.init 3).update vfNone 0 "wifi"
       "AA:BB:CC:11:22:33" (some "HomeNet") (some (-40)) none)
     vfNone 1 "AA:BB:CC:11:22:33" (some "Tag") none (-50) (by decide)⟩

/-! ### C1 / C3: what `snapshot` actually returns -/

/-- C1 fails in the code although its own comments (scanners.py lines 99 and
103) promise exactly the claimed order.  `sort_key` negates the signal twice
(`strength = -(rssi ...)`, key `(t, -strength)`), so the ascending sort puts
the WEAKEST signal first within each type group and None signals (key −9999)
at the TOP, not the bottom.  Two wifi records with signals −30 and −70 come
back as [−70, −30] — strictly increasing, violating the claimed
non-increasing order. -/
theorem snapshot_orders_weakest_first :
    ((((DeviceStore.init 60).update vfNone 10 "wifi" "AA:BB:CC:11:22:33"
        (some "NetA") (some (-30)) none).update vfNone 11 "wifi"
        "DD:EE:FF:11:22:33" (some "NetB") (some (-70)) none).snapshot.map
        (fun d => (dictGet d "type", dictGet d "rssi"))) =
      [(some (PyVal.str "wifi"), some (PyVal.int (-70))),
       (some (PyVal.str "wifi"), some (PyVal.int (-30)))] := by
  decide

/-- C3 fails in the code: `DeviceRecord` (scanners.py lines 45–54) has no
first-seen field at all, and the snapshot dict (lines 89–98) therefore never
carries a `"first_seen"` key — even though `app.py` line 45 reads
`d["first_seen"]` from every snapshot entry (a `KeyError` at runtime).
After a successful update the only timestamp key in the view is
`"last_seen"`. -/
theorem snapshot_has_no_first_seen :
    (((DeviceStore.init 60).update vfNone 10 "wifi" "AA:BB:CC:11:22:33"
        (some "HomeNet") (some (-40)) none).snapshot.length = 1) ∧
    (∀ d ∈ ((DeviceStore.init 60).update vfNone 10 "wifi" "AA:BB:CC:11:22:33"
        (some "HomeNet") (some (-40)) none).snapshot,
      dictGet d "first_seen" = none ∧ (dictGet d "last_seen").isSome = true) := by
  decide

/-! ### C2: lock events during `update` -/

/-- The lock/indirection events of one `update` call: acquisition and
release of the store lock (`with self._lock`, line 67) and of the vendor
lock (`with _vendor_lock`, line 32), and the external backend call
(`_mac_lookup.lookup(mac)`, line 38). -/
inductive LockEv where
  | acquireStore
  | releaseStore
  | acquireVendor
  | releaseVendor
  | backendLookup (mac : String)
deriving Repr, DecidableEq

/-- `mac.split(":")` on character lists (split at every colon). -/
def splitCols : List Char → List (List Char)
  | [] => [[]]
  | ':' :: t => [] :: splitCols t
  | c :: t =>
    match splitCols t with
    | g :: gs => (c :: g) :: gs
    | [] => [[c]]

/-- `":".join(groups)` on character lists. -/
def joinCols : List (List Char) → List Char
  | [] => []
  | [g] => g
  | g :: gs => g ++ ':' :: joinCols gs

/-- The three-octet vendor key `":".join(mac.split(":")[:3])`
(scanners.py line 31). -/
def vendorKeyOf (m : String) : String :=
  ⟨joinCols ((splitCols m.data).take 3)⟩

/-- The event trace of `_vendor_for(mac)` (scanners.py lines 27–42): nothing
if the normalized MAC is empty; otherwise the vendor lock is taken and the
external backend is called exactly when the three-octet key is not cached
and the backend is available. -/
def vendorForEvents (backendAvailable : Bool) (cache : List (String × String))
    (mac : String) : List LockEv :=
  let m := normalize_mac mac
  if m = "" then []
  else
    [LockEv.acquireVendor] ++
      (if (cache.lookup (vendorKeyOf m)).isSome then []
       else if backendAvailable then [LockEv.backendLookup m] else []) ++
    [LockEv.releaseVendor]

/-- The event trace of `DeviceStore.update` (scanners.py lines 63–83): after
the malformed-input guard the store lock is acquired, and `_vendor_for` runs
inside the `with self._lock:` block exactly when the record's vendor field is
falsy (line 80, `rec.vendor = rec.vendor or _vendor_for(mac)`). -/
def updateEvents (st : DeviceStore) (backendAvailable : Bool)
    (cache : List (String × String)) (mac : String) (rssi : Option Int) :
    List LockEv :=
  let m := normalize_mac mac
  if m = "" ∨ rssi = none then []
  else
    let vend : Option String :=
      match getRecord st.records m with
      | some rec => rec.vendor
      | none => none
    [LockEv.acquireStore] ++
      (if optTruthy vend then [] else vendorForEvents backendAvailable cache m) ++
    [LockEv.releaseStore]

/-- Does some vendor-resolver event (taking the vendor lock, or the external
backend call) occur while the store-lock depth is positive? -/
def vendorEvUnderStoreLock : Nat → List LockEv → Bool
  | _, [] => false
  | d, LockEv.acquireStore :: t => vendorEvUnderStoreLock (d + 1) t
  | d, LockEv.releaseStore :: t => vendorEvUnderStoreLock (d - 1) t
  | d, LockEv.acquireVendor :: t => decide (0 < d) || vendorEvUnderStoreLock d t
  | d, LockEv.backendLookup _ :: t => decide (0 < d) || vendorEvUnderStoreLock d t
  | d, LockEv.releaseVendor :: t => vendorEvUnderStoreLock d t

/-- C2 fails in the code: updating a fresh device (vendor field still unset,
vendor key not cached, backend available) runs the whole of `_vendor_for` —
vendor lock and external backend lookup included — strictly between the
acquisition and the release of the store lock. -/
theorem vendor_lookup_under_store_lock :
    (updateEvents (DeviceStore.init 60) true [] "AA:BB:CC:11:22:33"
        (some (-40)) =
      [LockEv.acquireStore, LockEv.acquireVendor,
       LockEv.backendLookup "AA:BB:CC:11:22:33", LockEv.releaseVendor,
       LockEv.releaseStore]) ∧
    vendorEvUnderStoreLock 0 (updateEvents (DeviceStore.init 60) true []
      "AA:BB:CC:11:22:33" (some (-40))) = true := by
  decide

/-! ### Character-level facts about the normalizer's pipeline -/

theorem upChar_toNat (c : Char) (h : 97 ≤ c.toNat ∧ c.toNat ≤ 122) :
    (upChar c).toNat = c.toNat - 32 := by
  unfold upChar
  rw [if_pos h]
  unfold Char.ofNat
  rw [dif_pos (Or.inl (by omega : c.toNat - 32 < 0xd800))]
  rfl

theorem upChar_eq_self (c : Char) (h : ¬(97 ≤ c.toNat ∧ c.toNat ≤ 122)) :
    upChar c = c := by
  unfold upChar
  exact if_neg h

theorem upChar_idem (c : Char) : upChar (upChar c) = upChar c := by
  by_cases h : 97 ≤ c.toNat ∧ c.toNat ≤ 122
  · have h2 := upChar_toNat c h
    exact upChar_eq_self (upChar c) (by omega)
  · rw [upChar_eq_self c h]
    exact upChar_eq_self c h

theorem isSpaceChar_upChar (c : Char) :
    isSpaceChar (upChar c) = isSpaceChar c := by
  by_cases h : 97 ≤ c.toNat ∧ c.toNat ≤ 122
  · have h2 := upChar_toNat c h
    have hl : isSpaceChar (upChar c) = false := by
      unfold isSpaceChar; simp; omega
    have hr : isSpaceChar c = false := by
      unfold isSpaceChar; simp; omega
    rw [hl, hr]
  · rw [upChar_eq_self c h]

theorem repChar_ne_dash (c : Char) : repChar c ≠ '-' := by
  unfold repChar
  split
  · decide
  · assumption

theorem repChar_fix (c : Char) (h : c ≠ '-') : repChar c = c := by
  unfold repChar
  exact if_neg h

theorem isSpaceChar_repChar (c : Char) :
    isSpaceChar (repChar c) = isSpaceChar c := by
  by_cases h : c = '-'
  · subst h; decide
  · rw [repChar_fix c h]

theorem upChar_repChar_upChar (c : Char) :
    upChar (repChar (upChar c)) = repChar (upChar c) := by
  by_cases h : upChar c = '-'
  · unfold repChar
    rw [if_pos h]
    decide
  · rw [repChar_fix _ h]
    exact upChar_idem c

/-! ### Strip-related list lemmas -/

/-- A list whose first and last characters (when they exist) are not
whitespace; `strip` is the identity exactly on such lists. -/
def noEdgeSpace (l : List Char) : Prop :=
  (∀ c, l.head? = some c → isSpaceChar c = false) ∧
  (∀ c, l.getLast? = some c → isSpaceChar c = false)

theorem head_dropWhile_not (p : α → Bool) (l : List α) (c : α)
    (h : (l.dropWhile p).head? = some c) : p c = false := by
  induction l with
  | nil => simp [List.dropWhile] at h
  | cons a t ih =>
    rw [List.dropWhile_cons] at h
    split at h
    · exact ih h
    · simp at h
      subst h
      simp_all

theorem getLast_dropWhile (p : α → Bool) (l : List α) (c : α)
    (h : (l.dropWhile p).getLast? = some c) : l.getLast? = some c := by
  induction l with
  | nil => simp [List.dropWhile] at h
  | cons a t ih =>
    rw [List.dropWhile_cons] at h
    split at h
    · have h2 := ih h
      cases t with
      | nil => simp at h2
      | cons b t2 => rw [List.getLast?_cons_cons]; exact h2
    · exact h

theorem dropWhile_eq_self_of_head (p : α → Bool) (l : List α)
    (h : ∀ c, l.head? = some c → p c = false) : l.dropWhile p = l := by
  cases l with
  | nil => rfl
  | cons a t =>
    rw [List.dropWhile_cons, if_neg]
    simp [h a rfl]

theorem stripL_eq_self (l : List Char) (h : noEdgeSpace l) : stripL l = l := by
  unfold stripL rtrim ltrim
  rw [dropWhile_eq_self_of_head _ _ h.1]
  rw [dropWhile_eq_self_of_head]
  · exact l.reverse_reverse
  · intro c hc
    rw [List.head?_reverse] at hc
    exact h.2 c hc

theorem noEdgeSpace_stripL (l : List Char) : noEdgeSpace (stripL l) := by
  constructor
  · intro c hc
    unfold stripL rtrim ltrim at hc
    rw [List.head?_reverse] at hc
    have h2 := getLast_dropWhile _ _ _ hc
    rw [List.getLast?_reverse] at h2
    exact head_dropWhile_not _ _ _ h2
  · intro c hc
    unfold stripL rtrim ltrim at hc
    rw [List.getLast?_reverse] at hc
    exact head_dropWhile_not _ _ _ hc

theorem map_fixpoints (f : α → α) (l : List α) (h : ∀ c ∈ l, f c = c) :
    l.map f = l := by
  induction l with
  | nil => rfl
  | cons a t ih =>
    simp only [List.map_cons, h a (by simp)]
    rw [ih (fun c hc => h c (by simp [hc]))]

theorem noEdgeSpace_map (f : Char → Char)
    (hf : ∀ c, isSpaceChar (f c) = isSpaceChar c) (l : List Char)
    (h : noEdgeSpace l) : noEdgeSpace (l.map f) := by
  constructor
  · intro c hc
    rw [List.head?_map] at hc
    cases hh : l.head? with
    | none => rw [hh] at hc; simp at hc
    | some a =>
      rw [hh] at hc
      simp at hc
      rw [← hc, hf]
      exact h.1 a hh
  · intro c hc
    rw [List.getLast?_map] at hc
    cases hh : l.getLast? with
    | none => rw [hh] at hc; simp at hc
    | some a =>
      rw [hh] at hc
      simp at hc
      rw [← hc, hf]
      exact h.2 a hh

/-! ### The shape of the normalizer's output -/

theorem exists_twelve (m : List Char) (hlen : m.length = 12) :
    ∃ c1 c2 c3 c4 c5 c6 c7 c8 c9 c10 c11 c12,
      m = [c1, c2, c3, c4, c5, c6, c7, c8, c9, c10, c11, c12] := by
  rcases m with _ | ⟨c1, _ | ⟨c2, _ | ⟨c3, _ | ⟨c4, _ | ⟨c5, _ | ⟨c6, _ | ⟨c7,
    _ | ⟨c8, _ | ⟨c9, _ | ⟨c10, _ | ⟨c11, _ | ⟨c12, _ | ⟨c13, m⟩⟩⟩⟩⟩⟩⟩⟩⟩⟩⟩⟩⟩ <;>
    simp at hlen
  exact ⟨c1, c2, c3, c4, c5, c6, c7, c8, c9, c10, c11, c12, rfl⟩

theorem colon_mem_insert12 (m : List Char) (hlen : m.length = 12) :
    ':' ∈ insert12 m := by
  obtain ⟨c1, c2, c3, c4, c5, c6, c7, c8, c9, c10, c11, c12, rfl⟩ :=
    exists_twelve m hlen
  simp [insert12]

theorem mem_insert12 (m : List Char) (hlen : m.length = 12) (c : Char)
    (h : c ∈ insert12 m) : c = ':' ∨ c ∈ m := by
  obtain ⟨c1, c2, c3, c4, c5, c6, c7, c8, c9, c10, c11, c12, rfl⟩ :=
    exists_twelve m hlen
  simp [insert12] at h
  simp
  tauto

theorem head_insert12 (m : List Char) (hlen : m.length = 12) :
    (insert12 m).head? = m.head? := by
  obtain ⟨c1, c2, c3, c4, c5, c6, c7, c8, c9, c10, c11, c12, rfl⟩ :=
    exists_twelve m hlen
  rfl

theorem getLast_insert12 (m : List Char) (hlen : m.length = 12) :
    (insert12 m).getLast? = m.getLast? := by
  obtain ⟨c1, c2, c3, c4, c5, c6, c7, c8, c9, c10, c11, c12, rfl⟩ :=
    exists_twelve m hlen
  rfl

/-- Every character of the preprocessed string is a fixpoint of both the
uppercasing and the hyphen-replacement maps. -/
theorem preMacL_chars (l : List Char) :
    ∀ c ∈ preMacL l, upChar c = c ∧ repChar c = c := by
  intro c hc
  unfold preMacL at hc
  rw [List.mem_map] at hc
  obtain ⟨b, hb, rfl⟩ := hc
  rw [List.mem_map] at hb
  obtain ⟨a, _, rfl⟩ := hb
  exact ⟨upChar_repChar_upChar a, repChar_fix _ (repChar_ne_dash _)⟩

theorem noEdgeSpace_preMacL (l : List Char) : noEdgeSpace (preMacL l) := by
  unfold preMacL
  exact noEdgeSpace_map _ isSpaceChar_repChar _
    (noEdgeSpace_map _ isSpaceChar_upChar _ (noEdgeSpace_stripL l))

/-- Unfolding equation for `normMacL`. -/
theorem normMacL_eq (l : List Char) :
    normMacL l =
      if (preMacL l).contains ':' = false ∧ (preMacL l).length = 12
      then insert12 (preMacL l) else preMacL l := rfl

theorem normMacL_chars (l : List Char) :
    ∀ c ∈ normMacL l, upChar c = c ∧ repChar c = c := by
  intro c hc
  rw [normMacL_eq] at hc
  split at hc
  · rename_i hcond
    rcases mem_insert12 _ hcond.2 c hc with h | h
    · subst h
      constructor <;> decide
    · exact preMacL_chars l c h
  · exact preMacL_chars l c hc

theorem noEdgeSpace_normMacL (l : List Char) : noEdgeSpace (normMacL l) := by
  rw [normMacL_eq]
  split
  · rename_i hcond
    have h := noEdgeSpace_preMacL l
    constructor
    · intro c hc
      rw [head_insert12 _ hcond.2] at hc
      exact h.1 c hc
    · intro c hc
      rw [getLast_insert12 _ hcond.2] at hc
      exact h.2 c hc
  · exact noEdgeSpace_preMacL l

/-- Applying the strip/upper/replace pipeline to the normalizer's output
changes nothing. -/
theorem preMacL_normMacL (l : List Char) :
    preMacL (normMacL l) = normMacL l := by
  unfold preMacL
  rw [stripL_eq_self _ (noEdgeSpace_normMacL l)]
  rw [map_fixpoints _ _ (fun c hc => (normMacL_chars l c hc).1)]
  rw [map_fixpoints _ _ (fun c hc => (normMacL_chars l c hc).2)]

theorem normMacL_idem (l : List Char) :
    normMacL (normMacL l) = normMacL l := by
  rw [normMacL_eq (normMacL l), preMacL_normMacL]
  rw [normMacL_eq l]
  by_cases hcond : (preMacL l).contains ':' = false ∧ (preMacL l).length = 12
  · rw [if_pos hcond]
    rw [if_neg]
    intro hc
    have hmem := colon_mem_insert12 _ hcond.2
    have h2 : (insert12 (preMacL l)).contains ':' = true :=
      List.elem_eq_true_of_mem hmem
    rw [hc.1] at h2
    cases h2
  · rw [if_neg hcond, if_neg hcond]

/-- C9.  `_normalize_mac` is idempotent: normalizing twice gives the same
string as normalizing once, for every input string. -/
theorem normalize_mac_idem (s : String) :
    normalize_mac (normalize_mac s) = normalize_mac s :=
  congrArg String.mk (normMacL_idem s.data)

/-! ### C6: when does the normalizer insert colons? -/

/-- Spec-side description of the canonical 6-group form: split into groups
of two characters and join them with colons. -/
def colonGroups : List Char → List Char
  | [] => []
  | [a] => [a]
  | [a, b] => [a, b]
  | a :: b :: c :: t => a :: b :: ':' :: colonGroups (c :: t)

theorem insert12_eq_colonGroups (m : List Char) (hlen : m.length = 12) :
    insert12 m = colonGroups m := by
  obtain ⟨c1, c2, c3, c4, c5, c6, c7, c8, c9, c10, c11, c12, rfl⟩ :=
    exists_twelve m hlen
  rfl

/-- Spec-side hexadecimal-digit test: `0`–`9`, `A`–`F`, `a`–`f`. -/
def isHexDigit (c : Char) : Bool :=
  (48 ≤ c.toNat && c.toNat ≤ 57) || (65 ≤ c.toNat && c.toNat ≤ 70) ||
    (97 ≤ c.toNat && c.toNat ≤ 102)

/-- The C6 claim as stated by the spec: colons are inserted exactly when the
trimmed/uppercased/hyphen-replaced intermediate has no colon and consists of
exactly 12 HEXADECIMAL characters; every other shape passes through
unchanged. -/
def claimC6 : Prop :=
  ∀ s : String,
    ((preMacL s.data).contains ':' = false ∧ (preMacL s.data).length = 12 ∧
        (∀ c ∈ preMacL s.data, isHexDigit c = true) →
      normalize_mac s = ⟨colonGroups (preMacL s.data)⟩) ∧
    (¬((preMacL s.data).contains ':' = false ∧ (preMacL s.data).length = 12 ∧
        (∀ c ∈ preMacL s.data, isHexDigit c = true)) →
      normalize_mac s = ⟨preMacL s.data⟩)

/-- C6 fails on the code: `_normalize_mac` checks only `len(mac) == 12` and
never that the characters are hexadecimal (scanners.py line 22).  The
12-character non-hex input "GGGGGGGGGGGG" should pass through unchanged by
the claim, but the code returns "GG:GG:GG:GG:GG:GG". -/
theorem normalize_hex_counterexample : ¬ claimC6 := by
  intro h
  have h2 := (h "GGGGGGGGGGGG").2 (by decide)
  revert h2
  decide

/-- C6 amended.  Colons are inserted (producing the 6-group colon-separated
form) exactly when the trimmed, uppercased, hyphen-replaced intermediate
contains no colon and is exactly 12 characters long — whether or not those
characters are hexadecimal; any other shape passes through unchanged. -/
theorem normalize_insertion_iff_len12 (s : String) :
    normalize_mac s =
      if (preMacL s.data).contains ':' = false ∧ (preMacL s.data).length = 12
      then ⟨colonGroups (preMacL s.data)⟩ else ⟨preMacL s.data⟩ := by
  show (⟨normMacL s.data⟩ : String) = _
  rw [normMacL_eq]
  by_cases hcond :
      (preMacL s.data).contains ':' = false ∧ (preMacL s.data).length = 12
  · rw [if_pos hcond, if_pos hcond, insert12_eq_colonGroups _ hcond.2]
  · rw [if_neg hcond, if_neg hcond]

/-! ### C8: the bounded history over arbitrary update sequences -/

/-- The arguments of one `update` call (plus its `time.time()` tick). -/
structure UpdateCall where
  dev_type : String
  mac : String
  name : Option String
  rssi : Option Int
  ssid : Option String
  now : Nat

/-- Apply one call to the store. -/
def stepCall (vf : String → Option String) (st : DeviceStore)
    (u : UpdateCall) : DeviceStore :=
  st.update vf u.now u.dev_type u.mac u.name u.rssi u.ssid

/-- Run a whole sequence of `update` calls against a store freshly
constructed with history capacity `N`. -/
def runCalls (vf : String → Option String) (N : Nat)
    (us : List UpdateCall) : DeviceStore :=
  us.foldl (stepCall vf) (DeviceStore.init N)

/-- The signal a call contributes to the record keyed `addr`: its `rssi`
when the call's address normalizes to `addr` and the call is not dropped
(records are never keyed by the empty string, hence the `addr ≠ ""`
side-condition; a `none` rssi contributes nothing via `filterMap`). -/
def callSignal (addr : String) (u : UpdateCall) : Option Int :=
  if normalize_mac u.mac = addr ∧ addr ≠ "" then u.rssi else none

/-- The signals of all successful updates for `addr`, in arrival order. -/
def signalsFor (us : List UpdateCall) (addr : String) : List Int :=
  us.filterMap (callSignal addr)

theorem takeLast_append_one (N : Nat) (l : List Int) (x : Int) :
    takeLast N (takeLast N l ++ [x]) = takeLast N (l ++ [x]) := by
  unfold takeLast
  rw [← List.drop_append_of_le_length (by omega : l.length - N ≤ l.length)]
  rw [List.drop_drop]
  congr 1
  simp [List.length_drop, List.length_append]
  omega

/-- A successful `update` rewrites the record map at the normalized key with
a record whose history is the deque-append of the previous history (empty
for a fresh record). -/
theorem update_success_records (st : DeviceStore) (vf : String → Option String)
    (now : Nat) (dev_type mac : String) (name ssid : Option String) (r : Int)
    (hm : normalize_mac mac ≠ "") :
    ∃ rec4,
      st.update vf now dev_type mac name (some r) ssid =
        { history_len := st.history_len,
          records := setRecord st.records (normalize_mac mac) rec4 } ∧
      rec4.history = dequeAppend st.history_len
        (match getRecord st.records (normalize_mac mac) with
         | some rec => rec.history
         | none => []) r := by
  unfold DeviceStore.update
  rw [if_neg (by simp [hm])]
  refine ⟨_, rfl, ?_⟩
  by_cases hdt : dev_type = "wifi" <;>
    cases getRecord st.records (normalize_mac mac) <;>
    simp [hdt]

/-- The history invariant carried through a run: the store's capacity is
`N`, a present record's history is the last `N` contributed signals, and an
absent address has no contributed signals. -/
def HistInv (N : Nat) (st : DeviceStore) (sig : String → List Int) : Prop :=
  st.history_len = N ∧
  (∀ addr rec, getRecord st.records addr = some rec →
    rec.history = takeLast N (sig addr)) ∧
  (∀ addr, getRecord st.records addr = none → sig addr = [])

theorem histInv_step (N : Nat) (vf : String → Option String)
    (st : DeviceStore) (sig : String → List Int) (h : HistInv N st sig)
    (u : UpdateCall) :
    HistInv N (stepCall vf st u)
      (fun addr => sig addr ++ (callSignal addr u).toList) := by
  by_cases hguard : normalize_mac u.mac = "" ∨ u.rssi = none
  · have hst : stepCall vf st u = st :=
      update_noop_of_guard _ _ _ _ _ _ _ _ hguard
    have hcs : ∀ addr, callSignal addr u = none := by
      intro addr
      unfold callSignal
      split
      · rename_i h2
        rcases hguard with hg | hg
        · exact absurd (by rw [← h2.1, hg]) h2.2
        · exact hg
      · rfl
    refine ⟨by rw [hst]; exact h.1, fun addr rec hgr => ?_, fun addr hgr => ?_⟩
    · rw [hst] at hgr
      simp only [hcs, Option.toList_none, List.append_nil]
      exact h.2.1 addr rec hgr
    · rw [hst] at hgr
      simp only [hcs, Option.toList_none, List.append_nil]
      exact h.2.2 addr hgr
  · push_neg at hguard
    obtain ⟨hm, hr⟩ := hguard
    obtain ⟨r, hru⟩ : ∃ r, u.rssi = some r := by
      cases hu : u.rssi with
      | none => exact absurd hu hr
      | some r => exact ⟨r, rfl⟩
    obtain ⟨rec4, hupd, hhist⟩ :=
      update_success_records st vf u.now u.dev_type u.mac u.name u.ssid r hm
    have hstep : stepCall vf st u =
        { history_len := st.history_len,
          records := setRecord st.records (normalize_mac u.mac) rec4 } := by
      unfold stepCall
      rw [hru]
      exact hupd
    refine ⟨by rw [hstep]; exact h.1, fun addr rec hgr => ?_, fun addr hgr => ?_⟩
    · rw [hstep] at hgr
      by_cases haddr : addr = normalize_mac u.mac
      · rw [haddr] at hgr
        rw [getRecord_setRecord_self] at hgr
        injection hgr with hrec
        subst hrec
        have hcs : callSignal (normalize_mac u.mac) u = some r := by
          unfold callSignal
          rw [if_pos ⟨rfl, hm⟩]
          exact hru
        rw [haddr]
        simp only [hcs, Option.toList_some]
        rw [hhist]
        cases hg : getRecord st.records (normalize_mac u.mac) with
        | some rec0 =>
          have h2 := h.2.1 _ rec0 hg
          simp only [h2]
          unfold dequeAppend
          rw [h.1]
          exact takeLast_append_one N (sig (normalize_mac u.mac)) r
        | none =>
          have h2 := h.2.2 _ hg
          simp only [h2]
          unfold dequeAppend
          rw [h.1]
      · rw [getRecord_setRecord_ne _ _ _ _ haddr] at hgr
        have hcs : callSignal addr u = none := by
          unfold callSignal
          rw [if_neg]
          intro h2
          exact haddr h2.1.symm
        simp only [hcs, Option.toList_none, List.append_nil]
        exact h.2.1 addr rec hgr
    · rw [hstep] at hgr
      by_cases haddr : addr = normalize_mac u.mac
      · subst haddr
        rw [getRecord_setRecord_self] at hgr
        cases hgr
      · rw [getRecord_setRecord_ne _ _ _ _ haddr] at hgr
        have hcs : callSignal addr u = none := by
          unfold callSignal
          rw [if_neg]
          intro h2
          exact haddr h2.1.symm
        simp only [hcs, Option.toList_none, List.append_nil]
        exact h.2.2 addr hgr

theorem signalsFor_cons (u : UpdateCall) (us : List UpdateCall)
    (addr : String) :
    signalsFor (u :: us) addr =
      (callSignal addr u).toList ++ signalsFor us addr := by
  unfold signalsFor
  rw [List.filterMap_cons]
  cases callSignal addr u <;> rfl

theorem histInv_run (vf : String → Option String) (N : Nat)
    (us : List UpdateCall) :
    ∀ (st : DeviceStore) (sig : String → List Int), HistInv N st sig →
      HistInv N (us.foldl (stepCall vf) st)
        (fun addr => sig addr ++ signalsFor us addr) := by
  induction us with
  | nil =>
    intro st sig h
    refine ⟨h.1, fun addr rec hgr => ?_, fun addr hgr => ?_⟩
    · simp only [signalsFor, List.filterMap_nil, List.append_nil]
      exact h.2.1 addr rec hgr
    · simp only [signalsFor, List.filterMap_nil, List.append_nil]
      exact h.2.2 addr hgr
  | cons u us ih =>
    intro st sig h
    have h2 := ih _ _ (histInv_step N vf st sig h u)
    refine ⟨h2.1, fun addr rec hgr => ?_, fun addr hgr => ?_⟩
    · simp only [signalsFor_cons, ← List.append_assoc]
      exact h2.2.1 addr rec hgr
    · simp only [signalsFor_cons, ← List.append_assoc]
      exact h2.2.2 addr hgr

/-- C8.  For every history capacity `N`, every sequence of `update` calls
run against a fresh store, and every record present afterwards: the record's
history is exactly the last `min N k` signal samples of the `k` successful
updates for its address, in arrival order (oldest first), and in particular
its length never exceeds `N` (scanners.py lines 57–61, 67–83; deque ring
semantics). -/
theorem history_ring_buffer (vf : String → Option String) (N : Nat)
    (us : List UpdateCall) (addr : String) (rec : DeviceRecord)
    (h : getRecord (runCalls vf N us).records addr = some rec) :
    rec.history = takeLast N (signalsFor us addr) ∧
    rec.history.length ≤ N ∧
    rec.history.length = min N (signalsFor us addr).length := by
  have hInv : HistInv N (DeviceStore.init N) (fun _ => []) :=
    ⟨rfl, fun _ _ hgr => Option.noConfusion hgr, fun _ _ => rfl⟩
  have h2 := (histInv_run vf N us _ _ hInv).2.1 addr rec h
  simp only [List.nil_append] at h2
  refine ⟨h2, ?_, ?_⟩
  · rw [h2]
    exact takeLast_length_le _ _
  · rw [h2]
    unfold takeLast
    simp only [List.length_drop]
    omega

/-- The example scenario of spec §8, with history capacity 2: three
successful updates of one address through three spellings of the MAC. -/
def callsC8 : List UpdateCall :=
  [ { dev_type := "wifi", mac := "AA:BB:CC:11:22:33", name := some "HomeNet",
      rssi := some (-40), ssid := none, now := 0 },
    { dev_type := "wifi", mac := "aabbcc112233", name := some "HomeNet",
      rssi := some (-45), ssid := none, now := 1 },
    { dev_type := "wifi", mac := "AA-BB-CC-11-22-33", name := some "HomeNet",
      rssi := some (-38), ssid := none, now := 2 } ]

/-- The record the scenario produces. -/
def recC8 : DeviceRecord :=
  { type := "wifi", mac := "AA:BB:CC:11:22:33", name := none,
    ssid := some "HomeNet", vendor := none, rssi := some (-38),
    last_seen := 2, history := [-45, -38] }

theorem history_ring_buffer_witness :
    (getRecord (runCalls vfNone 2 callsC8).records "AA:BB:CC:11:22:33" =
      some recC8) ∧
    (recC8.history = takeLast 2 (signalsFor callsC8 "AA:BB:CC:11:22:33") ∧
     recC8.history.length ≤ 2 ∧
     recC8.history.length =
       min 2 (signalsFor callsC8 "AA:BB:CC:11:22:33").length) :=
  ⟨by decide,
   history_ring_buffer vfNone 2 callsC8 "AA:BB:CC:11:22:33" recC8 (by decide)⟩
